import Mathlib

/-!
Verification of the two markdown fix-up scripts of this repository:
`scripts/fix_divs_and_blockquotes_sql.py` and `scripts/normalize_bold_sql.py`.

Text is modelled as `List Char`.  The Python string and `re` operations the
scripts use are embedded as executable Lean functions:

* `str.splitlines` splits on `\n`, `\r`, `\r\n` and the remaining Unicode
  line boundaries recognised by Python (`\x0b`, `\x0c`, `\x1c`-`\x1e`,
  `\x85`, ` `, ` `), never keeping the separator;
* `re` whitespace `\s` (Unicode mode) is the set of Python whitespace
  characters; word characters for `\b` are modelled as ASCII `[A-Za-z0-9_]`
  (the scripts' keyword patterns and all inputs considered here are ASCII;
  Python additionally treats non-ASCII letters as word characters);
* each regular expression of the scripts is compiled by hand into a
  deterministic matching function, following the backtracking semantics of
  the Python engine for that particular pattern (greedy `\s*`, lazy `.*?`
  and `[^>]*?`, optional groups).  Case-insensitive matching lowercases
  ASCII letters, which is what `re.I` and `str.lower` do on ASCII text.

Loops that advance an index by a computed amount (`while i < n` with
lookahead collection) are written with an explicit fuel argument equal to
the number of lines; each step consumes at least one line, so the fuel
never runs out, and fuel-irrelevance lemmas below make the definitions
independent of the exact bound.
-/

/-- Python whitespace (`\s` in Unicode mode / `str.isspace`). -/
def isPySpace (c : Char) : Bool :=
  c = ' ' || c = '\t' || c = '\n' || c = '\r' || c = '\x0b' || c = '\x0c' ||
  c = '\x1c' || c = '\x1d' || c = '\x1e' ||
  c = '\u0085' || c = '\u00A0' || c = '\u1680' ||
  ('\u2000' ≤ c && c ≤ '\u200A') ||
  c = '\u2028' || c = '\u2029' || c = '\u202F' || c = '\u205F' || c = '\u3000'

/-- Line boundaries recognised by Python's `str.splitlines`. -/
def isPyLineBreak (c : Char) : Bool :=
  c = '\n' || c = '\r' || c = '\x0b' || c = '\x0c' ||
  c = '\x1c' || c = '\x1d' || c = '\x1e' ||
  c = '\u0085' || c = '\u2028' || c = '\u2029'

/-- Word characters for the `\b` boundaries of the keyword regexes
(ASCII fragment of Python's `\w`). -/
def isWordChar (c : Char) : Bool :=
  c.isAlphanum || c = '_'

/-- Prepend a character to the first line of a line list (helper for
`splitlinesChars`); on an empty list it opens a new line. -/
def consHead (c : Char) : List (List Char) → List (List Char)
  | [] => [[c]]
  | l :: ls => (c :: l) :: ls

/-- Python's `str.splitlines`: split at every line boundary, treating
`\r\n` as a single boundary, dropping the separators, and producing no
final empty line for a trailing separator. -/
def splitlinesChars : List Char → List (List Char)
  | [] => []
  | '\r' :: '\n' :: cs => [] :: splitlinesChars cs
  | c :: cs =>
    if isPyLineBreak c then [] :: splitlinesChars cs
    else consHead c (splitlinesChars cs)

/-- `"\n".join`. -/
def joinNL : List (List Char) → List Char
  | [] => []
  | [l] => l
  | l :: l2 :: ls => l ++ '\n' :: joinNL (l2 :: ls)

/-- ASCII-case-insensitive character comparison (`re.I` / `str.lower`). -/
def ciEq (a b : Char) : Bool :=
  a.toLower = b.toLower

/-- Case-insensitive "the input starts with this literal". -/
def startsWithCI : List Char → List Char → Bool
  | [], _ => true
  | _ :: _, [] => false
  | p :: ps, c :: cs => ciEq p c && startsWithCI ps cs

/-- Case-sensitive "the input starts with this literal". -/
def startsWithL : List Char → List Char → Bool
  | [], _ => true
  | _ :: _, [] => false
  | p :: ps, c :: cs => (p = c) && startsWithL ps cs

/-- Case-insensitive substring test (`pat in s.lower()` for ASCII `pat`). -/
def containsCI (pat : List Char) : List Char → Bool
  | [] => pat.isEmpty
  | c :: cs => startsWithCI pat (c :: cs) || containsCI pat cs

/-- Match one keyword word, case-insensitively; return the rest of the
input on success. -/
def matchWordCI : List Char → List Char → Option (List Char)
  | [], cs => some cs
  | _ :: _, [] => none
  | p :: ps, c :: cs => if ciEq p c then matchWordCI ps cs else none

/-- Match a keyword pattern: words separated by `\s+` (this is how
`GROUP\s+BY` and `ORDER\s+BY` appear in the scripts' keyword regexes;
single keywords are one-word patterns). -/
def matchKwWords : List (List Char) → List Char → Option (List Char)
  | [], cs => some cs
  | [w] , cs => matchWordCI w cs
  | w :: w2 :: ws, cs =>
    match matchWordCI w cs with
    | none => none
    | some rest =>
      let rest2 := rest.dropWhile isPySpace
      if rest2.length < rest.length then matchKwWords (w2 :: ws) rest2 else none

/-- Does some keyword pattern match at the head of the input, with a word
boundary after it?  (All keywords end in a letter, so the trailing `\b`
holds iff the next character is absent or not a word character.) -/
def kwMatchesAt (pats : List (List (List Char))) (cs : List Char) : Bool :=
  pats.any fun p =>
    match matchKwWords p cs with
    | none => false
    | some rest =>
      match rest.head? with
      | none => true
      | some c => !isWordChar c

/-- `re.search` for `\b(kw1|kw2|...)\b`: some position with a word boundary
before it (tracked via the previous character) carries a keyword match.
All keywords start with a letter, so the leading `\b` holds iff the
previous character is absent or not a word character. -/
def kwSearchAux (pats : List (List (List Char))) : Option Char → List Char → Bool
  | _, [] => false
  | prev, c :: cs =>
    ((match prev with
      | none => true
      | some p => !isWordChar p) && kwMatchesAt pats (c :: cs))
    || kwSearchAux pats (some c) cs

def kwSearch (pats : List (List (List Char))) (cs : List Char) : Bool :=
  kwSearchAux pats none cs

/-- Keyword set of `SQL_KEYWORDS` in `fix_divs_and_blockquotes_sql.py`. -/
def fixKeywords : List (List (List Char)) :=
  [["SELECT".data], ["INSERT".data], ["UPDATE".data], ["DELETE".data],
   ["CREATE".data], ["WITH".data], ["FROM".data], ["WHERE".data],
   ["GROUP".data, "BY".data], ["ORDER".data, "BY".data],
   ["JOIN".data], ["HAVING".data], ["UNION".data], ["VALUES".data],
   ["CAST".data], ["SUM".data], ["AVG".data], ["COUNT".data],
   ["MIN".data], ["MAX".data]]

/-- Keyword set of `SQL_KEYWORDS` in `normalize_bold_sql.py` (smaller). -/
def boldKeywords : List (List (List Char)) :=
  [["SELECT".data], ["INSERT".data], ["UPDATE".data], ["DELETE".data],
   ["CREATE".data], ["WITH".data], ["FROM".data], ["WHERE".data],
   ["GROUP".data, "BY".data], ["ORDER".data, "BY".data],
   ["JOIN".data], ["HAVING".data], ["UNION".data], ["VALUES".data]]

/-- `re.search(r"[,();=*<>\\]", s)` of the fix script. -/
def fixPunct (cs : List Char) : Bool :=
  cs.any fun c => [',', '(', ')', ';', '=', '*', '<', '>', '\\'].contains c

/-- `re.search(r"[,();=*<>]", s)` of the bold script (no backslash). -/
def boldPunct (cs : List Char) : Bool :=
  cs.any fun c => [',', '(', ')', ';', '=', '*', '<', '>'].contains c

/-- The "SQL keyword or punctuation" heuristic of the fix script. -/
def bqHeuristic (inner : List Char) : Bool :=
  kwSearch fixKeywords inner || fixPunct inner

/-- `is_blockquote_sql_line` of `fix_divs_and_blockquotes_sql.py`.

The regex `^\s*>\s*(.*\S.*)?$` (via `re.match`) matches iff the first
non-whitespace character is `>`; the group then takes everything after the
maximal whitespace run following `>` (empty group means a blank quoted
line).  Returns the inner text for SQL-candidate lines, `some []` for
blank quoted lines, `none` otherwise. -/
def is_blockquote_sql_line (s : List Char) : Option (List Char) :=
  let t := s.dropWhile isPySpace
  if t.head? = some '>' then
    let inner := t.tail.dropWhile isPySpace
    if inner.isEmpty then some []
    else if bqHeuristic inner then some inner else none
  else none

/-- Smallest split of the input as `inner ++ "**" ++ trailing-whitespace`
(the lazy `(.*?)\*\*\s*$` tail of the bold-line regex); returns `inner`. -/
def findStarStarWs : List Char → Option (List Char)
  | [] => none
  | [_] => none
  | a :: b :: rest =>
    if a = '*' && b = '*' && rest.all isPySpace then some []
    else
      match findStarStarWs (b :: rest) with
      | some r => some (a :: r)
      | none => none

/-- `is_bold_sql_line` of `normalize_bold_sql.py`.

The regex `^\s*(>\s*)?\*\*(.*?)\*\*\s*$` strips leading whitespace, an
optional `>` marker with following whitespace, then requires `**`, a lazy
inner, `**` and trailing whitespace.  HTML `div` fragments in the inner
text are rejected; otherwise the (smaller) keyword set or punctuation
heuristic decides. -/
def is_bold_sql_line (s : List Char) : Option (List Char) :=
  let t := s.dropWhile isPySpace
  let t2 := if t.head? = some '>' then t.tail.dropWhile isPySpace else t
  if startsWithL "**".data t2 then
    match findStarStarWs (t2.drop 2) with
    | none => none
    | some inner =>
      if containsCI "<div".data inner || containsCI "</div>".data inner then none
      else if kwSearch boldKeywords inner || boldPunct inner then some inner
      else none
  else none

/-- Split the input at its first `>`: `some (before, after)` with the `>`
dropped (the `[^>]*?` segments of `DIV_IN_CODE_RE` cannot cross a `>`, so
the `>` that closes the `div` opening tag is the first one). -/
def splitAtGt : List Char → Option (List Char × List Char)
  | [] => none
  | c :: cs =>
    if c = '>' then some ([], cs)
    else
      match splitAtGt cs with
      | some (a, b) => some (c :: a, b)
      | none => none

/-- The lazy `.*?</div>\s*```" tail of `DIV_IN_CODE_RE`: find the earliest
occurrence of `</div>` (case-insensitively) that is followed, after
whitespace, by a closing fence.  Returns `some (g, rest)` where `g` is the
consumed text up to and including the matched `</div>` literal and `rest`
is the input after the closing fence. -/
def findCloseDiv : List Char → Option (List Char × List Char)
  | [] => none
  | c :: cs =>
    if startsWithCI "</div>".data (c :: cs) then
      let after := (c :: cs).drop 6
      let afterWs := after.dropWhile isPySpace
      if startsWithL "```".data afterWs then
        some ((c :: cs).take 6, afterWs.drop 3)
      else
        match findCloseDiv cs with
        | some (a, r) => some (c :: a, r)
        | none => none
    else
      match findCloseDiv cs with
      | some (a, r) => some (c :: a, r)
      | none => none

/-- Try to match `DIV_IN_CODE_RE` at the head of the input:
`` ```sql\s*(<div[^>]*?text-align:[^>]*?>.*?</div>)\s*``` `` with
`re.S | re.I`.  Returns `some (group1, rest)` on success; `group1` is the
captured `<div ...>...</div>` text verbatim. -/
def tryDivMatch (cs : List Char) : Option (List Char × List Char) :=
  if startsWithCI "```sql".data cs then
    let r1 := (cs.drop 6).dropWhile isPySpace
    if startsWithCI "<div".data r1 then
      match splitAtGt (r1.drop 4) with
      | some (tagBody, afterGt) =>
        if containsCI "text-align:".data tagBody then
          match findCloseDiv afterGt with
          | some (g, rest) => some (r1.take 4 ++ tagBody ++ '>' :: g, rest)
          | none => none
        else none
      | none => none
    else none
  else none

/-- One step of `DIV_IN_CODE_RE.sub` never consumes fewer characters than
it emits into the remainder, so fuel equal to the input length suffices. -/
def removeDivAux : Nat → List Char → List Char
  | 0, cs => cs
  | _ + 1, [] => []
  | fuel + 1, c :: cs =>
    match tryDivMatch (c :: cs) with
    | some (g, rest) => g ++ removeDivAux fuel rest
    | none => c :: removeDivAux fuel cs

/-- `remove_div_code_blocks` of `fix_divs_and_blockquotes_sql.py`:
`DIV_IN_CODE_RE.sub(lambda m: m.group(1), text)`, i.e. scan left to right
and replace every non-overlapping match by its first capture group. -/
def remove_div_code_blocks (t : List Char) : List Char :=
  removeDivAux t.length t

/-- `r == ""` test of the collection loop. -/
def extractBq (s : List Char) : List Char :=
  (is_blockquote_sql_line s).getD []

/-- Is this line classified (blank-or-SQL) by the blockquote classifier? -/
def bqSome (s : List Char) : Bool :=
  (is_blockquote_sql_line s).isSome

/-- Pop leading and trailing empty strings from the collected run
(the two `while sql_lines and sql_lines[...] == ""` loops). -/
def trimBlanks (ls : List (List Char)) : List (List Char) :=
  ((ls.dropWhile (· = [])).reverse.dropWhile (· = [])).reverse

/-- The `while i < n` loop of `convert_blockquote_sequences`: on a
classified line, collect the maximal run of classified lines, convert it
to a fenced block if it has a non-blank member, otherwise re-emit it
unchanged; unclassified lines pass through. -/
def convertAux : Nat → List (List Char) → List (List Char)
  | 0, ls => ls
  | _ + 1, [] => []
  | fuel + 1, l :: ls =>
    match is_blockquote_sql_line l with
    | none => l :: convertAux fuel ls
    | some _ =>
      let run := (l :: ls).takeWhile bqSome
      let rest := (l :: ls).dropWhile bqSome
      let sqls := run.map extractBq
      if sqls.any (fun r => !r.isEmpty) then
        "```sql".data :: (trimBlanks sqls ++ "```".data :: convertAux fuel rest)
      else
        run ++ convertAux fuel rest

/-- The loop of `convert_blockquote_sequences` on a line list. -/
def convertLines (ls : List (List Char)) : List (List Char) :=
  convertAux ls.length ls

/-- `convert_blockquote_sequences` of `fix_divs_and_blockquotes_sql.py`:
split into lines, run the loop, rejoin with `\n` and restore a trailing
newline only when the input ended with `\n`. -/
def convert_blockquote_sequences (t : List Char) : List Char :=
  joinNL (convertLines (splitlinesChars t)) ++
    (if t.getLast? = some '\n' then ['\n'] else [])

/-- The whole text transform of the fix script (`normalize_file` applies
`remove_div_code_blocks` then `convert_blockquote_sequences`). -/
def fix_transform (t : List Char) : List Char :=
  convert_blockquote_sequences (remove_div_code_blocks t)

/-- `re.match(r"^\s*```", line)`: the line opens with a fence delimiter
after optional whitespace. -/
def isFenceLine (s : List Char) : Bool :=
  startsWithL "```".data (s.dropWhile isPySpace)

/-- Is this line a bold-wrapped SQL line? -/
def boldSome (s : List Char) : Bool :=
  (is_bold_sql_line s).isSome

/-- Extraction for the bold collection loop. -/
def extractBold (s : List Char) : List Char :=
  (is_bold_sql_line s).getD []

/-- The `while i < n` loop of the bold script's `normalize_file`: fence
lines toggle `in_fence` and pass through; outside a fence a bold-SQL line
starts a run that is collected and replaced by one fenced block (setting
`changed`); everything else passes through.  Returns the output lines and
the `changed` flag. -/
def boldAux : Nat → Bool → List (List Char) → List (List Char) × Bool
  | 0, _, ls => (ls, false)
  | _ + 1, _, [] => ([], false)
  | fuel + 1, inFence, l :: ls =>
    if isFenceLine l then
      let r := boldAux fuel (!inFence) ls
      (l :: r.1, r.2)
    else if inFence then
      let r := boldAux fuel inFence ls
      (l :: r.1, r.2)
    else
      match is_bold_sql_line l with
      | some m =>
        let inners := m :: (ls.takeWhile boldSome).map extractBold
        let rest := ls.dropWhile boldSome
        let r := boldAux fuel false rest
        ("```sql".data :: (inners ++ "```".data :: r.1), true)
      | none =>
        let r := boldAux fuel inFence ls
        (l :: r.1, r.2)

/-- The bold scan started in a given fence state. -/
def boldScanFrom (inFence : Bool) (ls : List (List Char)) :
    List (List Char) × Bool :=
  boldAux ls.length inFence ls

/-- Line-level pass of the bold script (`in_fence` starts `False`). -/
def normalize_bold_lines (t : List Char) : List (List Char) × Bool :=
  boldScanFrom false (splitlinesChars t)

/-- The text the bold script would write:
`"\n".join(out_lines) + "\n"` (unconditional trailing newline). -/
def normalize_bold_text (t : List Char) : List Char :=
  joinNL (normalize_bold_lines t).1 ++ ['\n']

/-- Filesystem writes performed by `normalize_file`, in program order. -/
inductive FileEvent
  | writeBackup (content : List Char)
  | writeSource (content : List Char)
deriving DecidableEq, Repr

/-- `normalize_file` of `fix_divs_and_blockquotes_sql.py`: apply both text
transforms; when the result differs from the original, write the original
to the `.fixbak` backup, then overwrite the source, and return `True`. -/
def normalize_file_fix (t : List Char) : List FileEvent × Bool :=
  let t2 := fix_transform t
  if t2 ≠ t then ([FileEvent.writeBackup t, FileEvent.writeSource t2], true)
  else ([], false)

/-- `normalize_file` of `normalize_bold_sql.py`: run the line pass; when
the `changed` flag is set, write the original to the `.bak` backup, then
overwrite the source with the rejoined lines plus a newline, and return
`True`. -/
def normalize_file_bold (t : List Char) : List FileEvent × Bool :=
  let r := normalize_bold_lines t
  if r.2 then
    ([FileEvent.writeBackup t, FileEvent.writeSource (normalize_bold_text t)],
     true)
  else ([], false)

/-! ### The fence state of the bold scan. -/

/-- The value of `in_fence` after scanning the given lines, starting from
`b`: every fence-delimiter line toggles it. -/
def fenceStateAfter (b : Bool) : List (List Char) → Bool
  | [] => b
  | l :: ls => fenceStateAfter (if isFenceLine l then !b else b) ls

/-- Number of fence-delimiter lines. -/
def countFence (ls : List (List Char)) : Nat :=
  ls.countP (fun l => isFenceLine l)

/-- Amended C7, stated in the spec's own style: a line is classified by
the blockquote classifier iff it decomposes as optional leading
whitespace, a MANDATORY `>` marker, and a remainder that is blank after
whitespace or passes the SQL keyword-or-punctuation heuristic. -/
def bq_line_spec (s : List Char) : Prop :=
  ∃ a b, s = a ++ '>' :: b ∧ (∀ c ∈ a, isPySpace c = true) ∧
    (b.dropWhile isPySpace = [] ∨ bqHeuristic (b.dropWhile isPySpace) = true)

/-! ### Fuel irrelevance: any fuel at least the number of lines gives the
same result, so the wrappers `convertLines` / `boldScanFrom` describe the
Python loops exactly. -/

theorem convertAux_fuel : ∀ f g (ls : List (List Char)),
    ls.length ≤ f → ls.length ≤ g → convertAux f ls = convertAux g ls := by
  intro f
  induction f with
  | zero =>
    intro g b hf hg
    have hb : b = [] := List.length_eq_zero.mp (Nat.le_zero.mp hf)
    subst hb
    cases g <;> rfl
  | succ f ih =>
    intro g ls hf hg
    cases ls with
    | nil => cases g <;> rfl
    | cons l ls' =>
      cases g with
      | zero => simp at hg
      | succ g' =>
        have hf' : ls'.length ≤ f := by simpa using hf
        have hg' : ls'.length ≤ g' := by simpa using hg
        simp only [convertAux]
        cases hm : is_blockquote_sql_line l with
        | none => rw [ih g' ls' hf' hg']
        | some r =>
          have hdrop : ((l :: ls').dropWhile bqSome).length ≤ ls'.length := by
            have hpos : bqSome l = true := by simp [bqSome, hm]
            rw [List.dropWhile_cons, if_pos hpos]
            exact (List.dropWhile_sublist _).length_le
          rw [ih g' _ (le_trans hdrop hf') (le_trans hdrop hg')]

theorem boldAux_fuel : ∀ f g (b : Bool) (ls : List (List Char)),
    ls.length ≤ f → ls.length ≤ g → boldAux f b ls = boldAux g b ls := by
  intro f
  induction f with
  | zero =>
    intro g b ls hf hg
    have hb : ls = [] := List.length_eq_zero.mp (Nat.le_zero.mp hf)
    subst hb
    cases g <;> rfl
  | succ f ih =>
    intro g b ls hf hg
    cases ls with
    | nil => cases g <;> rfl
    | cons l ls' =>
      cases g with
      | zero => simp at hg
      | succ g' =>
        have hf' : ls'.length ≤ f := by simpa using hf
        have hg' : ls'.length ≤ g' := by simpa using hg
        by_cases hfen : isFenceLine l
        · simp [boldAux, hfen, ih g' (!b) ls' hf' hg']
        · by_cases hb : b
          · have hb' : b = true := hb
            subst hb'
            simp [boldAux, hfen, ih g' true ls' hf' hg']
          · have hb' : b = false := by simpa using hb
            subst hb'
            cases hm : is_bold_sql_line l with
            | some m =>
              have hdrop : (ls'.dropWhile boldSome).length ≤ ls'.length :=
                (List.dropWhile_sublist _).length_le
              simp [boldAux, hfen, hm,
                ih g' false _ (le_trans hdrop hf') (le_trans hdrop hg')]
            | none => simp [boldAux, hfen, hm, ih g' false ls' hf' hg']

/-! ### Step lemmas for the two loops, stated without fuel. -/

theorem convertLines_nil : convertLines [] = [] := rfl

theorem convertLines_cons_none {l : List Char} {ls : List (List Char)}
    (h : is_blockquote_sql_line l = none) :
    convertLines (l :: ls) = l :: convertLines ls := by
  simp only [convertLines, List.length_cons, convertAux, h]

theorem convertLines_cons_some {l r : List Char} {ls : List (List Char)}
    (h : is_blockquote_sql_line l = some r) :
    convertLines (l :: ls) =
      (if ((l :: ls).takeWhile bqSome).map extractBq
            |>.any (fun x => !x.isEmpty) then
        "```sql".data :: (trimBlanks (((l :: ls).takeWhile bqSome).map extractBq)
          ++ "```".data :: convertLines ((l :: ls).dropWhile bqSome))
      else
        (l :: ls).takeWhile bqSome
          ++ convertLines ((l :: ls).dropWhile bqSome)) := by
  have hpos : bqSome l = true := by simp [bqSome, h]
  have hdrop : ((l :: ls).dropWhile bqSome).length ≤ ls.length := by
    rw [List.dropWhile_cons, if_pos hpos]
    exact (List.dropWhile_sublist _).length_le
  simp only [convertLines, List.length_cons, convertAux, h]
  rw [convertAux_fuel ls.length ((l :: ls).dropWhile bqSome).length _ hdrop
        (le_refl _)]

theorem boldScanFrom_nil (b : Bool) : boldScanFrom b [] = ([], false) := rfl

theorem boldScanFrom_fence {l : List Char} {ls : List (List Char)} (b : Bool)
    (h : isFenceLine l = true) :
    boldScanFrom b (l :: ls) =
      (l :: (boldScanFrom (!b) ls).1, (boldScanFrom (!b) ls).2) := by
  simp [boldScanFrom, boldAux, h]

theorem boldScanFrom_inFence {l : List Char} {ls : List (List Char)}
    (h : isFenceLine l = false) :
    boldScanFrom true (l :: ls) =
      (l :: (boldScanFrom true ls).1, (boldScanFrom true ls).2) := by
  simp [boldScanFrom, boldAux, h]

theorem boldScanFrom_bold {l m : List Char} {ls : List (List Char)}
    (h : isFenceLine l = false) (hm : is_bold_sql_line l = some m) :
    boldScanFrom false (l :: ls) =
      ("```sql".data ::
        ((m :: (ls.takeWhile boldSome).map extractBold)
          ++ "```".data :: (boldScanFrom false (ls.dropWhile boldSome)).1),
       true) := by
  have hdrop : (ls.dropWhile boldSome).length ≤ ls.length :=
    (List.dropWhile_sublist _).length_le
  simp [boldScanFrom, boldAux, h, hm,
    boldAux_fuel ls.length (ls.dropWhile boldSome).length false
      (ls.dropWhile boldSome) hdrop (le_refl _)]

theorem boldScanFrom_none {l : List Char} {ls : List (List Char)}
    (h : isFenceLine l = false) (hm : is_bold_sql_line l = none) :
    boldScanFrom false (l :: ls) =
      (l :: (boldScanFrom false ls).1, (boldScanFrom false ls).2) := by
  simp [boldScanFrom, boldAux, h, hm]

/-! ### takeWhile / dropWhile across an append whose right part starts
with a failing element. -/

theorem takeWhile_append_stop {α : Type} (p : α → Bool) :
    ∀ (a b : List α),
    (∀ x, b.head? = some x → p x = false) →
    (a ++ b).takeWhile p = a.takeWhile p := by
  intro a
  induction a with
  | nil =>
    intro b hb
    cases b with
    | nil => rfl
    | cons x xs => simp [List.takeWhile_cons, hb x rfl]
  | cons y ys ih =>
    intro b hb
    by_cases hy : p y
    · simp [List.takeWhile_cons, hy, ih b hb]
    · simp [List.takeWhile_cons, hy]

theorem dropWhile_append_stop {α : Type} (p : α → Bool) :
    ∀ (a b : List α),
    (∀ x, b.head? = some x → p x = false) →
    (a ++ b).dropWhile p = a.dropWhile p ++ b := by
  intro a
  induction a with
  | nil =>
    intro b hb
    cases b with
    | nil => rfl
    | cons x xs => simp [List.dropWhile_cons, hb x rfl]
  | cons y ys ih =>
    intro b hb
    by_cases hy : p y
    · simp [List.dropWhile_cons, hy, ih b hb]
    · simp [List.dropWhile_cons, hy]

/-- All-true prefix plus failing-head suffix: the run of the collection
loops is exactly the left part. -/
theorem takeWhile_append_all {α : Type} (p : α → Bool) (a b : List α)
    (ha : ∀ x ∈ a, p x = true) (hb : ∀ x, b.head? = some x → p x = false) :
    (a ++ b).takeWhile p = a := by
  rw [takeWhile_append_stop p a b hb]
  exact List.takeWhile_eq_self_iff.mpr ha

theorem dropWhile_append_all {α : Type} (p : α → Bool) (a b : List α)
    (ha : ∀ x ∈ a, p x = true) (hb : ∀ x, b.head? = some x → p x = false) :
    (a ++ b).dropWhile p = b := by
  rw [dropWhile_append_stop p a b hb, List.dropWhile_eq_nil_iff.mpr, List.nil_append]
  intro x hx
  simp [ha x hx]

/-! ### Fence lines and bold lines are mutually exclusive. -/

/-- A fence-delimiter line is never a bold-SQL line (after whitespace it
starts with a backtick, not `>` or `*`). -/
theorem isFence_not_bold {l : List Char} (h : isFenceLine l = true) :
    is_bold_sql_line l = none := by
  unfold isFenceLine at h
  unfold is_bold_sql_line
  cases ht : l.dropWhile isPySpace with
  | nil => rw [ht] at h; simp [startsWithL] at h
  | cons c cs =>
    rw [ht] at h
    simp only [startsWithL, String.data] at h
    have hc : c = '`' := by
      rcases Bool.and_eq_true_iff.mp h with ⟨h1, _⟩
      exact (decide_eq_true_iff.mp h1).symm
    subst hc
    simp [startsWithL]

/-- A bold-SQL line is never a fence-delimiter line. -/
theorem boldSome_not_fence {l : List Char} (h : boldSome l = true) :
    isFenceLine l = false := by
  by_contra hne
  have hf : isFenceLine l = true := by
    cases hval : isFenceLine l
    · exact absurd hval hne
    · rfl
  rw [boldSome, isFence_not_bold hf] at h
  simp at h

theorem fenceStateAfter_append (b : Bool) (a c : List (List Char)) :
    fenceStateAfter b (a ++ c) = fenceStateAfter (fenceStateAfter b a) c := by
  induction a generalizing b with
  | nil => rfl
  | cons l a ih => simp [fenceStateAfter, ih]

theorem fenceStateAfter_nonfence (b : Bool) (a : List (List Char))
    (ha : ∀ x ∈ a, isFenceLine x = false) : fenceStateAfter b a = b := by
  induction a generalizing b with
  | nil => rfl
  | cons l a ih =>
    have hl : isFenceLine l = false := ha l (by simp)
    simp only [fenceStateAfter, hl, Bool.false_eq_true, if_false]
    exact ih b (fun x hx => ha x (by simp [hx]))

/-- The fence state after a scan is the initial state XORed with the
parity of the number of fence-delimiter lines. -/
theorem fenceStateAfter_parity :
    ∀ (ls : List (List Char)) (b : Bool),
    fenceStateAfter b ls = xor b (decide (countFence ls % 2 = 1)) := by
  intro ls
  induction ls with
  | nil => intro b; simp [fenceStateAfter, countFence]
  | cons l ls ih =>
    intro b
    by_cases hl : isFenceLine l
    · have hc : countFence (l :: ls) = countFence ls + 1 := by
        simp [countFence, hl]
      rcases Nat.mod_two_eq_zero_or_one (countFence ls) with h2 | h2 <;>
        cases b <;>
          simp [fenceStateAfter, hl, ih, hc, Nat.add_mod, h2]
    · have hc : countFence (l :: ls) = countFence ls := by
        simp [countFence, hl]
      simp [fenceStateAfter, hl, ih, hc]

/-- Scanning fence-free lines from inside a fence emits them verbatim and
converts nothing. -/
theorem boldScanFrom_inFence_all :
    ∀ (ls rest : List (List Char)), (∀ l ∈ ls, isFenceLine l = false) →
    boldScanFrom true (ls ++ rest) =
      (ls ++ (boldScanFrom true rest).1, (boldScanFrom true rest).2) := by
  intro ls
  induction ls with
  | nil => intro rest _; simp
  | cons l ls' ih =>
    intro rest h
    have hl : isFenceLine l = false := h l (by simp)
    rw [List.cons_append, boldScanFrom_inFence hl,
      ih rest (fun x hx => h x (by simp [hx]))]
    simp

/-- Splitting the bold scan at a fence-delimiter line: the scan of the
whole input is the scan up to and including the fence, followed by the
scan of the remainder from the toggled fence state. -/
theorem boldScanFrom_split :
    ∀ (n : Nat) (pre : List (List Char)), pre.length ≤ n →
    ∀ (b : Bool) (f : List Char) (post : List (List Char)),
    isFenceLine f = true →
    boldScanFrom b (pre ++ f :: post) =
      ((boldScanFrom b (pre ++ [f])).1
        ++ (boldScanFrom (fenceStateAfter b (pre ++ [f])) post).1,
       ((boldScanFrom b (pre ++ [f])).2
        || (boldScanFrom (fenceStateAfter b (pre ++ [f])) post).2)) := by
  intro n
  induction n with
  | zero =>
    intro pre hpre b f post hf
    have hnil : pre = [] := List.length_eq_zero.mp (Nat.le_zero.mp hpre)
    subst hnil
    simp only [List.nil_append]
    rw [boldScanFrom_fence b hf,
      show ([f] : List (List Char)) = f :: [] from rfl,
      boldScanFrom_fence b hf]
    simp [boldScanFrom_nil, fenceStateAfter, hf]
  | succ n ih =>
    intro pre hpre b f post hf
    cases pre with
    | nil =>
      simp only [List.nil_append]
      rw [boldScanFrom_fence b hf,
        show ([f] : List (List Char)) = f :: [] from rfl,
        boldScanFrom_fence b hf]
      simp [boldScanFrom_nil, fenceStateAfter, hf]
    | cons l pre' =>
      have hpre' : pre'.length ≤ n := by simpa using hpre
      by_cases hl0 : isFenceLine l = true
      · rw [List.cons_append, boldScanFrom_fence b hl0, List.cons_append,
          boldScanFrom_fence b hl0, ih pre' hpre' (!b) f post hf]
        simp [fenceStateAfter, hl0]
      · have hl : isFenceLine l = false := by simpa using hl0
        cases b with
        | true =>
          rw [List.cons_append, boldScanFrom_inFence hl, List.cons_append,
            boldScanFrom_inFence hl, ih pre' hpre' true f post hf]
          simp [fenceStateAfter, hl]
        | false =>
          cases hm : is_bold_sql_line l with
          | none =>
            rw [List.cons_append, boldScanFrom_none hl hm, List.cons_append,
              boldScanFrom_none hl hm, ih pre' hpre' false f post hf]
            simp [fenceStateAfter, hl]
          | some m =>
            have hfB : ∀ x, (f :: post).head? = some x → boldSome x = false := by
              intro x hx
              have hxf : f = x := by simpa using hx
              subst hxf
              simp [boldSome, isFence_not_bold hf]
            have hfB1 : ∀ x, ([f] : List (List Char)).head? = some x →
                boldSome x = false := by
              intro x hx
              have hxf : f = x := by simpa using hx
              subst hxf
              simp [boldSome, isFence_not_bold hf]
            have htake : (pre' ++ f :: post).takeWhile boldSome
                = pre'.takeWhile boldSome := takeWhile_append_stop _ pre' _ hfB
            have htake1 : (pre' ++ [f]).takeWhile boldSome
                = pre'.takeWhile boldSome := takeWhile_append_stop _ pre' _ hfB1
            have hdrop : (pre' ++ f :: post).dropWhile boldSome
                = pre'.dropWhile boldSome ++ f :: post :=
              dropWhile_append_stop _ pre' _ hfB
            have hdrop1 : (pre' ++ [f]).dropWhile boldSome
                = pre'.dropWhile boldSome ++ [f] :=
              dropWhile_append_stop _ pre' _ hfB1
            have hlen : (pre'.dropWhile boldSome).length ≤ n :=
              le_trans (List.dropWhile_sublist _).length_le hpre'
            have hstate : fenceStateAfter false (l :: (pre' ++ [f]))
                = fenceStateAfter false (pre'.dropWhile boldSome ++ [f]) := by
              have h1 : ∀ x ∈ pre'.takeWhile boldSome, isFenceLine x = false := by
                intro x hx
                exact boldSome_not_fence (List.mem_takeWhile_imp hx)
              calc fenceStateAfter false (l :: (pre' ++ [f]))
                  = fenceStateAfter false (pre' ++ [f]) := by
                    simp [fenceStateAfter, hl]
                _ = fenceStateAfter false
                      ((pre'.takeWhile boldSome ++ pre'.dropWhile boldSome)
                        ++ [f]) := by
                    rw [List.takeWhile_append_dropWhile]
                _ = fenceStateAfter false (pre'.dropWhile boldSome ++ [f]) := by
                    rw [List.append_assoc, fenceStateAfter_append,
                      fenceStateAfter_nonfence false _ h1]
            simp only [List.cons_append]
            rw [boldScanFrom_bold hl hm, boldScanFrom_bold hl hm, htake, htake1,
              hdrop, hdrop1, ih (pre'.dropWhile boldSome) hlen false f post hf,
              hstate]
            simp

/-! ### Claim theorems. -/

/-- C2: a run of quoted SQL lines `> SELECT a`, `> FROM b`, `> WHERE c=1;`
is replaced by exactly one fenced block — a ```` ```sql ```` opener, the
three inner lines with the quote marker and following whitespace stripped,
in order, and a ```` ``` ```` closer — and scanning resumes immediately
after the consumed run. -/
theorem c2_blockquote_run_conversion :
    ∀ rest : List (List Char),
    (∀ l, rest.head? = some l → is_blockquote_sql_line l = none) →
    convertLines
        ("> SELECT a".data :: "> FROM b".data :: "> WHERE c=1;".data :: rest)
      = "```sql".data :: "SELECT a".data :: "FROM b".data :: "WHERE c=1;".data
          :: "```".data :: convertLines rest := by
  intro rest hrest
  have hhead : is_blockquote_sql_line ("> SELECT a".data)
      = some ("SELECT a".data) := by decide
  have hall : ∀ x ∈ ["> SELECT a".data, "> FROM b".data, "> WHERE c=1;".data],
      bqSome x = true := by decide
  have hstop : ∀ x, rest.head? = some x → bqSome x = false := by
    intro x hx
    simp [bqSome, hrest x hx]
  have htake := takeWhile_append_all bqSome
    ["> SELECT a".data, "> FROM b".data, "> WHERE c=1;".data] rest hall hstop
  have hdrop := dropWhile_append_all bqSome
    ["> SELECT a".data, "> FROM b".data, "> WHERE c=1;".data] rest hall hstop
  simp only [List.cons_append, List.nil_append] at htake hdrop
  rw [convertLines_cons_some hhead, htake, hdrop]
  have hmap : List.map extractBq
      ["> SELECT a".data, "> FROM b".data, "> WHERE c=1;".data]
      = ["SELECT a".data, "FROM b".data, "WHERE c=1;".data] := by decide
  rw [hmap]
  have hcond : (["SELECT a".data, "FROM b".data, "WHERE c=1;".data].any
      fun r => !r.isEmpty) = true := by decide
  rw [hcond]
  have htrim : trimBlanks ["SELECT a".data, "FROM b".data, "WHERE c=1;".data]
      = ["SELECT a".data, "FROM b".data, "WHERE c=1;".data] := by decide
  simp [htrim]

theorem c2_witness :
    convertLines ["> SELECT a".data, "> FROM b".data, "> WHERE c=1;".data,
        "x".data]
      = ["```sql".data, "SELECT a".data, "FROM b".data, "WHERE c=1;".data,
        "```".data, "x".data] := by
  have h := c2_blockquote_run_conversion ["x".data] (by
    intro l hl
    have hxl : "x".data = l := by simpa using hl
    subst hxl
    decide)
  rw [h]
  decide

/-- C3: a single line fully wrapped in bold markers whose inner content
passes the SQL heuristic, with no adjacent qualifying bold line, is
replaced by exactly the three lines ```` ```sql ````, the verbatim inner
content, ```` ``` ````. -/
theorem c3_single_bold_line :
    ∀ rest : List (List Char),
    (∀ l, rest.head? = some l → is_bold_sql_line l = none) →
    is_bold_sql_line ("**SELECT 1;**".data) = some ("SELECT 1;".data)
    ∧ (boldScanFrom false ("**SELECT 1;**".data :: rest)).1
        = "```sql".data :: "SELECT 1;".data :: "```".data
            :: (boldScanFrom false rest).1 := by
  intro rest hrest
  have hm : is_bold_sql_line ("**SELECT 1;**".data)
      = some ("SELECT 1;".data) := by decide
  have hfen : isFenceLine ("**SELECT 1;**".data) = false := by decide
  have hstop : ∀ x, rest.head? = some x → boldSome x = false := by
    intro x hx
    simp [boldSome, hrest x hx]
  have htake : rest.takeWhile boldSome = [] := by
    cases rest with
    | nil => rfl
    | cons r rs => simp [List.takeWhile_cons, hstop r rfl]
  have hdrop : rest.dropWhile boldSome = rest := by
    cases rest with
    | nil => rfl
    | cons r rs => simp [List.dropWhile_cons, hstop r rfl]
  refine ⟨hm, ?_⟩
  rw [boldScanFrom_bold hfen hm, htake, hdrop]
  simp

theorem c3_witness :
    (boldScanFrom false ["**SELECT 1;**".data]).1
      = ["```sql".data, "SELECT 1;".data, "```".data] := by
  have h := c3_single_bold_line [] (by intro l hl; simp at hl)
  rw [h.2]
  decide

/-- C6: a consumed quoted run all of whose lines are blank quoted lines is
re-emitted unchanged with no fence; a run is converted only when it has a
non-blank SQL-candidate member, and then its extracted lines are trimmed
of leading and trailing blanks before emission. -/
theorem c6_blank_run_kept_and_trim :
    ∀ (run rest : List (List Char)), run ≠ [] →
    (∀ l ∈ run, bqSome l = true) →
    (∀ l, rest.head? = some l → is_blockquote_sql_line l = none) →
    ((∀ l ∈ run, is_blockquote_sql_line l = some []) →
      convertLines (run ++ rest) = run ++ convertLines rest)
    ∧ ((run.map extractBq).any (fun r => !r.isEmpty) = true →
      convertLines (run ++ rest)
        = "```sql".data :: (trimBlanks (run.map extractBq)
            ++ "```".data :: convertLines rest)) := by
  intro run rest hne hall hrest
  have hstop : ∀ x, rest.head? = some x → bqSome x = false := by
    intro x hx
    simp [bqSome, hrest x hx]
  have htake := takeWhile_append_all bqSome run rest hall hstop
  have hdrop := dropWhile_append_all bqSome run rest hall hstop
  cases run with
  | nil => exact absurd rfl hne
  | cons l run' =>
    have hl : bqSome l = true := hall l (by simp)
    obtain ⟨r, hr⟩ := Option.isSome_iff_exists.mp hl
    simp only [List.cons_append] at htake hdrop ⊢
    rw [convertLines_cons_some hr, htake, hdrop]
    constructor
    · intro hblank
      have hcond : ((l :: run').map extractBq).any (fun r => !r.isEmpty)
          = false := by
        rw [List.any_eq_false]
        intro x hx
        obtain ⟨y, hy, hyx⟩ := List.mem_map.mp hx
        rw [← hyx]
        simp [extractBq, hblank y hy]
      rw [hcond]
      simp
    · intro hcond
      rw [hcond]
      simp

theorem c6_witness : convertLines [">".data, ">".data] = [">".data, ">".data] := by
  have h := (c6_blank_run_kept_and_trim [">".data, ">".data] []
    (by simp) (by decide) (by intro l hl; simp at hl)).1 (by decide)
  simpa using h

/-- C5: during the bold pass, the lines strictly between an opening fence
line and its matching closing fence line are emitted verbatim — never
classified or converted — and the in-fence state toggles at every
fence-delimiter line. -/
theorem c5_fenced_segment_verbatim :
    ∀ (pre : List (List Char)) (f1 : List Char) (mid : List (List Char))
      (f2 : List Char) (post : List (List Char)),
    isFenceLine f1 = true → isFenceLine f2 = true →
    (∀ l ∈ mid, isFenceLine l = false) → countFence pre % 2 = 0 →
    (boldScanFrom false (pre ++ f1 :: (mid ++ f2 :: post))).1
      = (boldScanFrom false (pre ++ [f1])).1
          ++ mid ++ f2 :: (boldScanFrom false post).1 := by
  intro pre f1 mid f2 post hf1 hf2 hmid hpar
  rw [boldScanFrom_split pre.length pre (le_refl _) false f1
    (mid ++ f2 :: post) hf1]
  have hs1 : fenceStateAfter false (pre ++ [f1]) = true := by
    rw [fenceStateAfter_parity]
    have hc : countFence (pre ++ [f1]) = countFence pre + 1 := by
      simp [countFence, hf1]
    rw [hc]
    rcases Nat.mod_two_eq_zero_or_one (countFence pre) with h2 | h2
    · simp [Nat.add_mod, h2]
    · rw [h2] at hpar
      simp at hpar
  rw [hs1, boldScanFrom_split mid.length mid (le_refl _) true f2 post hf2]
  have hmid2 : boldScanFrom true (mid ++ [f2])
      = (mid ++ [f2], false) := by
    rw [boldScanFrom_inFence_all mid [f2] hmid,
      boldScanFrom_fence true hf2, boldScanFrom_nil]
  have hs2 : fenceStateAfter true (mid ++ [f2]) = false := by
    rw [fenceStateAfter_append, fenceStateAfter_nonfence true mid hmid]
    simp [fenceStateAfter, hf2]
  rw [hmid2, hs2]
  simp

theorem c5_witness :
    (boldScanFrom false
        ["```".data, "**SELECT 1;**".data, "```".data, "**x=1**".data]).1
      = (boldScanFrom false ["```".data]).1
          ++ ["**SELECT 1;**".data]
          ++ "```".data :: (boldScanFrom false ["**x=1**".data]).1 := by
  have h := c5_fenced_segment_verbatim [] ("```".data)
    ["**SELECT 1;**".data] ("```".data) ["**x=1**".data]
    (by decide) (by decide) (by decide) (by decide)
  simpa using h

/-- C10: every fence-delimiter line is emitted verbatim and toggles the
in-fence flag unconditionally; hence if the input has an odd number of
fence-delimiter lines, every line after the last fence line is emitted
verbatim (the scan stays in the in-fence state to the end and converts
nothing there). -/
theorem c10_fence_toggle_odd_tail :
    (∀ (b : Bool) (l : List Char) (ls : List (List Char)),
      isFenceLine l = true →
      boldScanFrom b (l :: ls)
        = (l :: (boldScanFrom (!b) ls).1, (boldScanFrom (!b) ls).2))
    ∧ (∀ (pre : List (List Char)) (f : List Char) (post : List (List Char)),
      isFenceLine f = true → (∀ l ∈ post, isFenceLine l = false) →
      countFence (pre ++ f :: post) % 2 = 1 →
      (boldScanFrom false (pre ++ f :: post)).1
        = (boldScanFrom false (pre ++ [f])).1 ++ post) := by
  constructor
  · intro b l ls hl
    exact boldScanFrom_fence b hl
  · intro pre f post hf hpost hodd
    rw [boldScanFrom_split pre.length pre (le_refl _) false f post hf]
    have hcpost : countFence post = 0 := by
      rw [countFence, List.countP_eq_zero]
      intro a ha
      simp [hpost a ha]
    have hs1 : fenceStateAfter false (pre ++ [f]) = true := by
      rw [fenceStateAfter_parity]
      have hc : countFence (pre ++ [f]) = countFence pre + 1 := by
        simp [countFence, hf]
      have hc2 : countFence (pre ++ f :: post)
          = countFence pre + 1 + countFence post := by
        simp [countFence, List.countP_append, List.countP_cons, hf]
        omega
      rw [hc2, hcpost, Nat.add_zero] at hodd
      rw [hc, hodd]
      simp
    rw [hs1]
    have hpass := boldScanFrom_inFence_all post [] hpost
    rw [List.append_nil] at hpass
    rw [hpass]
    simp [boldScanFrom_nil]

/-- C4: a fenced block tagged `sql` containing nothing but a centered
HTML `div` (detected through the inline `text-align` style hint) is
rewritten to the bare `div` content with both fence markers removed; the
matching spans multiple lines and is case-insensitive.  The transform is a
pure function of the text by construction. -/
theorem c4_div_in_code_unwrap :
    remove_div_code_blocks
        ("```sql\n<div style=\"text-align:center\">Header</div>\n```".data)
      = "<div style=\"text-align:center\">Header</div>".data
    ∧ remove_div_code_blocks
        ("X\n```SQL\n<DIV STYLE=\"TEXT-ALIGN:CENTER\">\nHeader\n</DIV>\n```\nY".data)
      = "X\n<DIV STYLE=\"TEXT-ALIGN:CENTER\">\nHeader\n</DIV>\nY".data := by
  constructor
  · decide
  · decide

/-- C9: on input `"a\r\nb"` no line is a blockquote SQL candidate and no
div-in-code block exists, yet `convert_blockquote_sequences` rebuilds the
text with a bare line feed, so it differs from the input and
`normalize_file` writes a backup and rewrites the file. -/
theorem c9_crlf_rewrite :
    ((splitlinesChars ("a\r\nb".data)).all
        fun l => (is_blockquote_sql_line l).isNone) = true
    ∧ remove_div_code_blocks ("a\r\nb".data) = "a\r\nb".data
    ∧ convert_blockquote_sequences ("a\r\nb".data) = "a\nb".data
    ∧ "a\nb".data ≠ "a\r\nb".data
    ∧ normalize_file_fix ("a\r\nb".data)
        = ([FileEvent.writeBackup ("a\r\nb".data),
            FileEvent.writeSource ("a\nb".data)], true) := by
  refine ⟨by decide, by decide, by decide, by decide, by decide⟩

/-- C1 fails: neither script's full text transform is idempotent.  The fix
script converts the nested blockquote `> > SELECT a` to a fenced block
whose inner line `> SELECT a` is classified again on the second run; the
bold script converts a bold line whose inner content `` ``` ; `` opens a
fence on the second run, exposing the following converted line
`**SELECT;**` to reclassification. -/
theorem c1_counterexample :
    fix_transform (fix_transform ("> > SELECT a".data))
        ≠ fix_transform ("> > SELECT a".data)
    ∧ normalize_bold_text (normalize_bold_text
          ("**``` ;**\n****SELECT;****".data))
        ≠ normalize_bold_text ("**``` ;**\n****SELECT;****".data) := by
  constructor
  · decide
  · decide

/-- C1 amended: idempotence holds on the spec's documented example inputs
(the second run changes nothing and reports no change), though not in
general. -/
theorem c1_amended_examples_idempotent :
    fix_transform (fix_transform ("> SELECT a\n> FROM b\n> WHERE c=1;".data))
      = fix_transform ("> SELECT a\n> FROM b\n> WHERE c=1;".data)
    ∧ (normalize_file_fix
        (fix_transform ("> SELECT a\n> FROM b\n> WHERE c=1;".data))).1 = []
    ∧ normalize_bold_text (normalize_bold_text ("**SELECT 1;**".data))
      = normalize_bold_text ("**SELECT 1;**".data)
    ∧ (normalize_file_bold (normalize_bold_text ("**SELECT 1;**".data))).1
      = [] := by
  refine ⟨by decide, by decide, by decide, by decide⟩

/-- C7 fails: the quote marker is not optional.  The line `SELECT a, b`
satisfies the SQL keyword-or-punctuation heuristic but carries no `>`
marker, and the classifier rejects it. -/
theorem c7_counterexample :
    bqHeuristic ("SELECT a, b".data) = true
    ∧ is_blockquote_sql_line ("SELECT a, b".data) = none := by
  constructor
  · decide
  · decide

/-- C7 amended: the classifier accepts exactly the lines whose first
non-whitespace character is the quote marker, with blank-or-heuristic
content after it; a line without the marker is never a candidate. -/
theorem c7_amended_marker_mandatory :
    ∀ s : List Char, (is_blockquote_sql_line s).isSome ↔ bq_line_spec s := by
  intro s
  simp only [is_blockquote_sql_line]
  constructor
  · intro h
    cases ht : s.dropWhile isPySpace with
    | nil =>
      rw [ht] at h
      simp at h
    | cons c t1 =>
      rw [ht] at h
      by_cases hc : c = '>'
      · subst hc
        simp only [List.head?_cons, List.tail_cons] at h
        rw [if_pos trivial] at h
        refine ⟨s.takeWhile isPySpace, t1, ?_, ?_, ?_⟩
        · conv_lhs => rw [← List.takeWhile_append_dropWhile
            (p := isPySpace) (l := s)]
          rw [ht]
        · intro x hx
          exact List.mem_takeWhile_imp hx
        · by_cases hin : (t1.dropWhile isPySpace).isEmpty
          · left
            simpa [List.isEmpty_iff] using hin
          · right
            rw [if_neg hin] at h
            by_cases hheu : bqHeuristic (t1.dropWhile isPySpace) = true
            · exact hheu
            · rw [if_neg hheu] at h
              simp at h
      · have hcond : ¬ ((c :: t1).head? = some '>') := by
          simp [hc]
        rw [if_neg hcond] at h
        simp at h
  · rintro ⟨a, b, hs, haSp, hcond⟩
    subst hs
    have hdrop : (a ++ '>' :: b).dropWhile isPySpace = '>' :: b := by
      apply dropWhile_append_all isPySpace a ('>' :: b)
        (fun x hx => haSp x hx)
      intro x hx
      have hxg : '>' = x := by simpa using hx
      subst hxg
      decide
    rw [hdrop]
    simp only [List.head?_cons, List.tail_cons]
    rw [if_pos trivial]
    by_cases hin : (b.dropWhile isPySpace).isEmpty
    · rw [if_pos hin]
      simp
    · rw [if_neg hin]
      rcases hcond with hc | hc
      · exact absurd (by simp [hc, List.isEmpty_iff]) hin
      · rw [if_pos hc]
        simp

/-! ### The bold script's `changed` flag versus textual difference. -/

set_option maxHeartbeats 1000000 in
/-- Unfolding of `splitlinesChars` on a cons cell that is not the start of
a `\r\n` pair. -/
theorem splitlinesChars_cons_eq (c : Char) (cs : List Char)
    (hguard : ∀ (cs1 : List Char), c = '\r' → cs = '\n' :: cs1 → False) :
    splitlinesChars (c :: cs) =
      if isPyLineBreak c then [] :: splitlinesChars cs
      else consHead c (splitlinesChars cs) := by
  conv_lhs => rw [splitlinesChars.eq_def]
  split
  · rename_i heq
    simp at heq
  · rename_i cs2 heq
    obtain ⟨hc, hcs⟩ := List.cons.inj heq
    exact absurd trivial (by simpa using hguard cs2 hc hcs)
  · rename_i c2 cs2 hg2 heq
    obtain ⟨hc, hcs⟩ := List.cons.inj heq
    subst hc
    subst hcs
    rfl

/-- A character that is not a line boundary extends the current line. -/
theorem splitlinesChars_cons_noBreak {c : Char} (cs : List Char)
    (h : isPyLineBreak c = false) :
    splitlinesChars (c :: cs) = consHead c (splitlinesChars cs) := by
  have hguard : ∀ (cs1 : List Char), c = '\r' → cs = '\n' :: cs1 → False := by
    intro cs1 hc _
    subst hc
    simp [isPyLineBreak] at h
  rw [splitlinesChars_cons_eq c cs hguard, h]
  simp

/-- Lines produced by `splitlinesChars` contain no line boundary. -/
theorem splitlines_noBreak : ∀ (cs : List Char), ∀ l ∈ splitlinesChars cs,
    ∀ ch ∈ l, isPyLineBreak ch = false := by
  intro cs
  induction cs using splitlinesChars.induct with
  | case1 => simp [splitlinesChars]
  | case2 cs ih =>
    intro l hl
    rw [show splitlinesChars ('\r' :: '\n' :: cs) = [] :: splitlinesChars cs
      from rfl] at hl
    rcases List.mem_cons.mp hl with h | h
    · subst h
      intro ch hch
      simp at hch
    · exact ih l h
  | case3 c cs hguard hbr ih =>
    intro l hl
    rw [splitlinesChars_cons_eq c cs hguard, if_pos hbr] at hl
    rcases List.mem_cons.mp hl with h | h
    · subst h
      intro ch hch
      simp at hch
    · exact ih l h
  | case4 c cs hguard hbr ih =>
    have hbr2 : isPyLineBreak c = false := by simpa using hbr
    intro l hl
    rw [splitlinesChars_cons_eq c cs hguard, hbr2] at hl
    simp only [Bool.false_eq_true, if_false] at hl
    cases hsp : splitlinesChars cs with
    | nil =>
      rw [hsp] at hl
      simp only [consHead, List.mem_singleton] at hl
      subst hl
      intro ch hch
      rcases List.mem_singleton.mp hch with rfl
      exact hbr2
    | cons l0 ls0 =>
      rw [hsp] at hl
      simp only [consHead, List.mem_cons] at hl
      rcases hl with h | h
      · subst h
        intro ch hch
        rcases List.mem_cons.mp hch with h2 | h2
        · subst h2
          exact hbr2
        · exact ih l0 (by rw [hsp]; simp) ch h2
      · exact ih l (by rw [hsp]; simp [h])

/-- Splitting a break-free line glued with `\n` onto a remainder. -/
theorem splitlines_append_line (l rest : List Char)
    (hl : ∀ ch ∈ l, isPyLineBreak ch = false) :
    splitlinesChars (l ++ '\n' :: rest) = l :: splitlinesChars rest := by
  induction l with
  | nil =>
    rw [List.nil_append]
    rfl
  | cons c l ih =>
    have hc : isPyLineBreak c = false := hl c (by simp)
    rw [List.cons_append, splitlinesChars_cons_noBreak _ hc,
      ih (fun ch hch => hl ch (by simp [hch]))]
    rfl

/-- Splitting the joined lines plus a trailing newline recovers the lines,
provided they are nonempty as a list and break-free. -/
theorem splitlines_joinNL : ∀ (ls : List (List Char)), ls ≠ [] →
    (∀ l ∈ ls, ∀ ch ∈ l, isPyLineBreak ch = false) →
    splitlinesChars (joinNL ls ++ ['\n']) = ls := by
  intro ls
  induction ls with
  | nil => intro h; exact absurd rfl h
  | cons l ls ih =>
    intro _ hnb
    cases ls with
    | nil =>
      rw [show joinNL [l] = l from rfl,
        show (['\n'] : List Char) = '\n' :: [] from rfl,
        splitlines_append_line l [] (fun ch hch => hnb l (by simp) ch hch)]
      rfl
    | cons l2 ls2 =>
      rw [show joinNL (l :: l2 :: ls2) = l ++ '\n' :: joinNL (l2 :: ls2)
          from rfl,
        List.append_assoc, List.cons_append,
        splitlines_append_line l _ (fun ch hch => hnb l (by simp) ch hch),
        ih (by simp) (fun x hx ch hch => hnb x (by simp [hx]) ch hch)]

/-- The inner text of a matched lazy `**...**` wrap consists of characters
of the input. -/
theorem findStarStarWs_subset : ∀ (r inner : List Char),
    findStarStarWs r = some inner → ∀ c ∈ inner, c ∈ r := by
  intro r
  induction r with
  | nil =>
    intro inner h
    simp [findStarStarWs] at h
  | cons a r ih =>
    cases r with
    | nil =>
      intro inner h
      simp [findStarStarWs] at h
    | cons b rest =>
      intro inner h
      simp only [findStarStarWs] at h
      by_cases hcond : (a = '*' && b = '*' && rest.all isPySpace) = true
      · rw [if_pos hcond] at h
        obtain rfl : ([] : List Char) = inner := by simpa using h
        intro c hc
        simp at hc
      · rw [if_neg hcond] at h
        cases hrec : findStarStarWs (b :: rest) with
        | none =>
          rw [hrec] at h
          simp at h
        | some r2 =>
          rw [hrec] at h
          obtain rfl : a :: r2 = inner := by simpa using h
          intro c hc
          rcases List.mem_cons.mp hc with h2 | h2
          · subst h2
            simp
          · have h3 := ih r2 hrec c h2
            simp [List.mem_cons]
            rcases List.mem_cons.mp h3 with h4 | h4
            · exact Or.inr (Or.inl h4)
            · exact Or.inr (Or.inr h4)

/-- The inner text extracted by the bold classifier consists of characters
of the line, so it is break-free whenever the line is. -/
theorem is_bold_inner_noBreak {l r : List Char}
    (h : is_bold_sql_line l = some r)
    (hl : ∀ ch ∈ l, isPyLineBreak ch = false) :
    ∀ ch ∈ r, isPyLineBreak ch = false := by
  have ht2 : ∀ x ∈ (if (l.dropWhile isPySpace).head? = some '>'
      then (l.dropWhile isPySpace).tail.dropWhile isPySpace
      else l.dropWhile isPySpace), x ∈ l := by
    intro x hx
    by_cases hc : (l.dropWhile isPySpace).head? = some '>'
    · rw [if_pos hc] at hx
      have h1 := (List.dropWhile_sublist
        (l := (l.dropWhile isPySpace).tail) isPySpace).subset hx
      have h2 := (List.tail_sublist (l.dropWhile isPySpace)).subset h1
      exact (List.dropWhile_sublist (l := l) isPySpace).subset h2
    · rw [if_neg hc] at hx
      exact (List.dropWhile_sublist (l := l) isPySpace).subset hx
  simp only [is_bold_sql_line] at h
  set t2 := if (l.dropWhile isPySpace).head? = some '>'
      then (l.dropWhile isPySpace).tail.dropWhile isPySpace
      else l.dropWhile isPySpace with ht2def
  by_cases hsw : startsWithL "**".data t2 = true
  · rw [if_pos hsw] at h
    cases hfind : findStarStarWs (t2.drop 2) with
    | none =>
      rw [hfind] at h
      simp at h
    | some inner =>
      rw [hfind] at h
      dsimp only [] at h
      by_cases hdiv : (containsCI "<div".data inner
          || containsCI "</div>".data inner) = true
      · rw [if_pos hdiv] at h
        simp at h
      · rw [if_neg hdiv] at h
        by_cases hkw : (kwSearch boldKeywords inner || boldPunct inner) = true
        · rw [if_pos hkw] at h
          obtain rfl : inner = r := by simpa using h
          intro ch hch
          have hin : ch ∈ t2.drop 2 := findStarStarWs_subset _ _ hfind ch hch
          have hin2 : ch ∈ t2 := (List.drop_sublist 2 t2).subset hin
          exact hl ch (ht2 ch hin2)
        · rw [if_neg hkw] at h
          simp at h
  · rw [if_neg hsw] at h
    simp at h

/-- The bold pass emits only break-free lines when fed break-free lines
(pass-through lines, fence literals, and extracted inner texts). -/
theorem boldAux_noBreak : ∀ (fuel : Nat) (b : Bool) (ls : List (List Char)),
    (∀ l ∈ ls, ∀ ch ∈ l, isPyLineBreak ch = false) →
    ∀ l ∈ (boldAux fuel b ls).1, ∀ ch ∈ l, isPyLineBreak ch = false := by
  intro fuel
  induction fuel with
  | zero =>
    intro b ls h
    exact h
  | succ fuel ih =>
    intro b ls h
    cases ls with
    | nil =>
      intro l hl
      simp [boldAux] at hl
    | cons l0 ls' =>
      have h0 : ∀ ch ∈ l0, isPyLineBreak ch = false := h l0 (by simp)
      have h' : ∀ l ∈ ls', ∀ ch ∈ l, isPyLineBreak ch = false :=
        fun l hl => h l (by simp [hl])
      intro l hl
      by_cases hfen : isFenceLine l0
      · rw [show boldAux (fuel+1) b (l0 :: ls')
            = (l0 :: (boldAux fuel (!b) ls').1, (boldAux fuel (!b) ls').2)
            from by simp [boldAux, hfen]] at hl
        rcases List.mem_cons.mp hl with h1 | h1
        · subst h1
          exact h0
        · exact ih (!b) ls' h' l h1
      · have hfen2 : isFenceLine l0 = false := by simpa using hfen
        cases b with
        | true =>
          rw [show boldAux (fuel+1) true (l0 :: ls')
              = (l0 :: (boldAux fuel true ls').1, (boldAux fuel true ls').2)
              from by simp [boldAux, hfen2]] at hl
          rcases List.mem_cons.mp hl with h1 | h1
          · subst h1
            exact h0
          · exact ih true ls' h' l h1
        | false =>
          cases hm : is_bold_sql_line l0 with
          | none =>
            rw [show boldAux (fuel+1) false (l0 :: ls')
                = (l0 :: (boldAux fuel false ls').1,
                    (boldAux fuel false ls').2)
                from by simp [boldAux, hfen2, hm]] at hl
            rcases List.mem_cons.mp hl with h1 | h1
            · subst h1
              exact h0
            · exact ih false ls' h' l h1
          | some m =>
            rw [show boldAux (fuel+1) false (l0 :: ls')
                = ("```sql".data ::
                    ((m :: (ls'.takeWhile boldSome).map extractBold)
                      ++ "```".data
                        :: (boldAux fuel false (ls'.dropWhile boldSome)).1),
                   true)
                from by simp [boldAux, hfen2, hm]] at hl
            simp only [List.mem_cons, List.mem_append] at hl
            rcases hl with h1 | h1 | h1 | h1
            · subst h1
              intro ch hch
              have hall : ∀ c ∈ "```sql".data, isPyLineBreak c = false := by
                decide
              exact hall ch hch
            · rcases h1 with h1 | h1
              · subst h1
                exact is_bold_inner_noBreak hm h0
              · obtain ⟨y, hy, hyl⟩ := List.mem_map.mp h1
                have hyls : y ∈ ls' := (List.takeWhile_sublist _).subset hy
                have hysome : boldSome y = true := List.mem_takeWhile_imp hy
                obtain ⟨ry, hry⟩ := Option.isSome_iff_exists.mp hysome
                rw [← hyl]
                have : extractBold y = ry := by simp [extractBold, hry]
                rw [this]
                exact is_bold_inner_noBreak hry (h' y hyls)
            · subst h1
              intro ch hch
              have hall : ∀ c ∈ "```".data, isPyLineBreak c = false := by
                decide
              exact hall ch hch
            · have hsub : ∀ x ∈ ls'.dropWhile boldSome, x ∈ ls' :=
                fun x hx => (List.dropWhile_sublist _).subset hx
              exact ih false (ls'.dropWhile boldSome)
                (fun x hx => h' x (hsub x hx)) l h1

/-- The scan of an empty line list does nothing. -/
theorem boldAux_nil_eq (fuel : Nat) (b : Bool) :
    boldAux fuel b [] = ([], false) := by
  cases fuel <;> rfl

/-- An empty output means an empty input. -/
theorem boldAux_out_nil : ∀ (fuel : Nat) (b : Bool) (ls : List (List Char)),
    (boldAux fuel b ls).1 = [] → ls = [] := by
  intro fuel b ls h
  cases fuel with
  | zero => exact h
  | succ f =>
    cases ls with
    | nil => rfl
    | cons l0 ls' =>
      by_cases hfen : isFenceLine l0
      · simp [boldAux, hfen] at h
      · have hfen2 : isFenceLine l0 = false := by simpa using hfen
        cases b with
        | true => simp [boldAux, hfen2] at h
        | false =>
          cases hm : is_bold_sql_line l0 with
          | none => simp [boldAux, hfen2, hm] at h
          | some m => simp [boldAux, hfen2, hm] at h

/-- If the `changed` flag is set, the emitted lines differ from the input
lines. -/
theorem boldAux_changed_ne : ∀ (fuel : Nat) (b : Bool) (ls : List (List Char)),
    (boldAux fuel b ls).2 = true → (boldAux fuel b ls).1 ≠ ls := by
  intro fuel
  induction fuel with
  | zero =>
    intro b ls h
    simp [boldAux] at h
  | succ fuel ih =>
    intro b ls h
    cases ls with
    | nil => simp [boldAux] at h
    | cons l0 ls' =>
      by_cases hfen : isFenceLine l0
      · have heq : boldAux (fuel+1) b (l0 :: ls')
            = (l0 :: (boldAux fuel (!b) ls').1, (boldAux fuel (!b) ls').2) := by
          simp [boldAux, hfen]
        rw [heq] at h ⊢
        intro hcontra
        exact ih (!b) ls' h (List.cons.inj hcontra).2
      · have hfen2 : isFenceLine l0 = false := by simpa using hfen
        cases b with
        | true =>
          have heq : boldAux (fuel+1) true (l0 :: ls')
              = (l0 :: (boldAux fuel true ls').1, (boldAux fuel true ls').2) := by
            simp [boldAux, hfen2]
          rw [heq] at h ⊢
          intro hcontra
          exact ih true ls' h (List.cons.inj hcontra).2
        | false =>
          cases hm : is_bold_sql_line l0 with
          | none =>
            have heq : boldAux (fuel+1) false (l0 :: ls')
                = (l0 :: (boldAux fuel false ls').1,
                    (boldAux fuel false ls').2) := by
              simp [boldAux, hfen2, hm]
            rw [heq] at h ⊢
            intro hcontra
            exact ih false ls' h (List.cons.inj hcontra).2
          | some m =>
            have heq : boldAux (fuel+1) false (l0 :: ls')
                = ("```sql".data ::
                    ((m :: (ls'.takeWhile boldSome).map extractBold)
                      ++ "```".data
                        :: (boldAux fuel false (ls'.dropWhile boldSome)).1),
                   true) := by
              simp [boldAux, hfen2, hm]
            rw [heq]
            intro hcontra
            have hhead : "```sql".data = l0 := (List.cons.inj hcontra).1
            rw [← hhead] at hm
            have : is_bold_sql_line ("```sql".data) = none := by decide
            rw [this] at hm
            exact Option.noConfusion hm

/-- C8 fails for the bold script: on input `"a"` the re-serialised text
(`"a\n"`) differs from the original, yet no conversion happened, so the
script writes neither a backup nor the file. -/
theorem c8_counterexample :
    normalize_bold_text ("a".data) ≠ "a".data
    ∧ normalize_file_bold ("a".data) = ([], false) := by
  constructor
  · decide
  · decide

/-- C8 amended: the fix script backs up and rewrites exactly when its text
transform changes the text; the bold script backs up and rewrites exactly
when its pass converted at least one bold run — in which case the written
text does differ from the original — and in both scripts the backup holds
the original text and is written before the source file. -/
theorem c8_amended_backup_conditions : ∀ t : List Char,
    ((normalize_file_fix t).1
      = if fix_transform t = t then []
        else [FileEvent.writeBackup t,
              FileEvent.writeSource (fix_transform t)])
    ∧ ((normalize_file_bold t).1
      = if (normalize_bold_lines t).2 = true
        then [FileEvent.writeBackup t,
              FileEvent.writeSource (normalize_bold_text t)]
        else [])
    ∧ ((normalize_bold_lines t).2 = true → normalize_bold_text t ≠ t) := by
  intro t
  refine ⟨?_, ?_, ?_⟩
  · by_cases heq : fix_transform t = t
    · simp [normalize_file_fix, heq]
    · simp [normalize_file_fix, heq]
  · by_cases hch : (normalize_bold_lines t).2 = true
    · simp [normalize_file_bold, hch]
    · simp [normalize_file_bold, hch]
  · intro hch heq
    have hlsnb : ∀ l ∈ splitlinesChars t, ∀ ch ∈ l, isPyLineBreak ch = false :=
      splitlines_noBreak t
    have houtnb : ∀ l ∈ (normalize_bold_lines t).1,
        ∀ ch ∈ l, isPyLineBreak ch = false :=
      boldAux_noBreak (splitlinesChars t).length false (splitlinesChars t)
        hlsnb
    have houtne : (normalize_bold_lines t).1 ≠ [] := by
      intro hnil
      have hls : splitlinesChars t = [] :=
        boldAux_out_nil (splitlinesChars t).length false _ hnil
      simp only [normalize_bold_lines, boldScanFrom, hls] at hch
      rw [boldAux_nil_eq] at hch
      simp at hch
    have hsplit : splitlinesChars (normalize_bold_text t)
        = (normalize_bold_lines t).1 := by
      rw [normalize_bold_text]
      exact splitlines_joinNL _ houtne houtnb
    rw [heq] at hsplit
    have hne := boldAux_changed_ne (splitlinesChars t).length false
      (splitlinesChars t) hch
    exact hne hsplit.symm

theorem c8_amended_witness :
    (normalize_file_bold ("**SELECT 1;**".data)).1
      = [FileEvent.writeBackup ("**SELECT 1;**".data),
         FileEvent.writeSource ("```sql\nSELECT 1;\n```\n".data)]
    ∧ normalize_bold_text ("**SELECT 1;**".data) ≠ "**SELECT 1;**".data := by
  have h := c8_amended_backup_conditions ("**SELECT 1;**".data)
  constructor
  · rw [h.2.1]
    have hch : (normalize_bold_lines ("**SELECT 1;**".data)).2 = true := by
      decide
    rw [if_pos hch]
    have hval : normalize_bold_text ("**SELECT 1;**".data)
        = "```sql\nSELECT 1;\n```\n".data := by decide
    rw [hval]
  · exact h.2.2 (by decide)

theorem c10_witness :
    (boldScanFrom false ["```".data, "**SELECT 1;**".data]).1
      = (boldScanFrom false ["```".data]).1 ++ ["**SELECT 1;**".data] := by
  have h := c10_fence_toggle_odd_tail.2 [] ("```".data) ["**SELECT 1;**".data]
    (by decide) (by decide) (by decide)
  simpa using h
